import Mathlib

/-!
Shallow embedding of the train-departures snapshot store of this repository
(src/database.js, src/test-runner.js, src/server.js, src/unnamed/part_001).

Rows of the SQLite table `train_departures` are modelled as a Lean structure;
the table itself is a `List Row` in insertion order.  Nullable TEXT column
values and the JavaScript values fed to `storeDeparture` are modelled by
`JSVal` (null, undefined, or a string).  Dates are modelled as epoch day
indices (`Nat`), with `weekdayOf` giving the weekday name of a day index;
wall-clock instants are minutes since the epoch, and a timezone is an offset
in minutes, so that the UTC date and the local civil date of one instant can
differ, as they do in the source.  `created_at` timestamps are modelled as
naturals; an insert stamps a value strictly greater than every existing one,
matching `CURRENT_TIMESTAMP` on an append-only table.
-/

/-- A JavaScript-style value as it occurs in departure records and in
nullable SQLite TEXT columns: null, undefined, or a string. -/
inductive JSVal where
  | vnull : JSVal
  | vundef : JSVal
  | vstr : String → JSVal
  deriving DecidableEq

/-- JavaScript truthiness for the values we model: only a non-empty string
is truthy; null, undefined and the empty string are falsy. -/
def JSVal.truthy : JSVal → Bool
  | .vstr s => decide (s ≠ "")
  | _ => false

/-- The JavaScript `a || b` idiom on our values. -/
def jsOr (a b : JSVal) : JSVal := if a.truthy then a else b

/-- `normalizeValue` from `storeDeparture`: null and undefined collapse to
null, everything else is untouched (the empty string is NOT normalized). -/
def normalizeValue : JSVal → JSVal
  | .vundef => .vnull
  | v => v

/-- SQL equality of a nullable TEXT column against a bound value: a NULL on
either side compares false (three-valued logic collapses to no match). -/
def sqlEqJ : JSVal → JSVal → Bool
  | .vstr s, .vstr t => decide (s = t)
  | _, _ => false

/-- SQL `IS NOT NULL` on a nullable TEXT column. -/
def isNotNullJ : JSVal → Bool
  | .vstr _ => true
  | _ => false

/-- Extract the string of a non-null value. -/
def strOf : JSVal → Option String
  | .vstr s => some s
  | _ => none

/-- Weekday names indexed so that epoch day 0 (1970-01-01, a Thursday) maps
to "Thursday". -/
def weekdayNames : List String :=
  ["Thursday", "Friday", "Saturday", "Sunday", "Monday", "Tuesday", "Wednesday"]

/-- Weekday name of an epoch day index. -/
def weekdayOf (d : Nat) : String := weekdayNames.getD (d % 7) ""

/-- The UTC calendar date (epoch day index) of an instant, as
`now.toISOString().slice(0, 10)` computes it. -/
def utcDay (nowMinutes : Nat) : Nat := nowMinutes / 1440

/-- The local civil date of an instant under a timezone offset, as
`now.toLocaleDateString(...)` computes it under the process or a named
timezone. -/
def localDay (nowMinutes tzOffsetMinutes : Nat) : Nat :=
  (nowMinutes + tzOffsetMinutes) / 1440

/-- One stored row of the `train_departures` table. -/
structure Row where
  service_date : Nat
  day_of_week : String
  departure_time : JSVal
  std : JSVal
  etd : JSVal
  platform : JSVal
  destination : String
  operator : JSVal
  is_cancelled : Nat
  delay_reason : JSVal
  created_at : Nat
  deriving DecidableEq

/-- The argument object of `storeDeparture`.  `service_date` and
`day_of_week` are optional (the store derives them when absent);
`is_cancelled` is coerced through truthiness to a boolean by callers. -/
structure DepartureData where
  std : JSVal
  etd : JSVal
  departure_time : JSVal
  platform : JSVal
  destination : String
  operator : JSVal
  is_cancelled : Bool
  delay_reason : JSVal
  service_date : Option Nat
  day_of_week : Option String
  deriving DecidableEq

/-- The row a `SELECT ... ORDER BY created_at DESC LIMIT 1` returns from a
set of rows: the one with the greatest `created_at` (first such row when
tied). -/
def argmaxCreated : List Row → Option Row
  | [] => none
  | r :: rs =>
    match argmaxCreated rs with
    | none => some r
    | some b => some (if r.created_at < b.created_at then b else r)

/-- The rows matching one logical-service identity, as the
`WHERE service_date = ? AND destination = ? AND std = ?` clause selects
them. -/
def identityRows (db : List Row) (sd : Nat) (dest : String) (st : JSVal) : List Row :=
  db.filter (fun r => decide (r.service_date = sd) && decide (r.destination = dest) && sqlEqJ r.std st)

/-- The most recent snapshot for a logical-service identity (the `latest`
query inside `storeDeparture`). -/
def latestFor (db : List Row) (sd : Nat) (dest : String) (st : JSVal) : Option Row :=
  argmaxCreated (identityRows db sd dest st)

/-- `const scheduledTime = std || departure_time` from `storeDeparture`. -/
def scheduledTimeOf (d : DepartureData) : JSVal := jsOr d.std d.departure_time

/-- `const nextEtd = etd || null` from `storeDeparture`. -/
def nextEtdOf (d : DepartureData) : JSVal := jsOr d.etd .vnull

/-- `const nextDepartureTime = nextEtd || scheduledTime` from
`storeDeparture`. -/
def nextDepartureTimeOf (d : DepartureData) : JSVal :=
  jsOr (nextEtdOf d) (scheduledTimeOf d)

/-- `const isCancelledInt = is_cancelled ? 1 : 0` from `storeDeparture`. -/
def isCancelledInt (d : DepartureData) : Nat := if d.is_cancelled then 1 else 0

/-- The `hasChange` expression of `storeDeparture`: append when there is no
prior snapshot or any compared field differs after `normalizeValue`. -/
def hasChange (latest : Option Row) (d : DepartureData) : Bool :=
  match latest with
  | none => true
  | some r =>
    decide (normalizeValue r.platform ≠ normalizeValue d.platform) ||
    decide (normalizeValue r.operator ≠ normalizeValue d.operator) ||
    decide (r.is_cancelled ≠ isCancelledInt d) ||
    decide (normalizeValue r.delay_reason ≠ normalizeValue d.delay_reason) ||
    decide (normalizeValue r.etd ≠ normalizeValue (nextEtdOf d)) ||
    decide (normalizeValue r.departure_time ≠ normalizeValue (nextDepartureTimeOf d))

/-- Greatest `created_at` present in the table (0 when empty). -/
def maxCreated (db : List Row) : Nat := db.foldr (fun r m => max r.created_at m) 0

/-- The `created_at` stamped on a fresh insert: strictly later than every
existing row. -/
def freshCreatedAt (db : List Row) : Nat := maxCreated db + 1

/-- The resolved `service_date` of a call to `storeDeparture` in
src/database.js: the supplied value, else the UTC calendar date of now. -/
def sdOf (nowMinutes : Nat) (d : DepartureData) : Nat :=
  d.service_date.getD (utcDay nowMinutes)

/-- The resolved `day_of_week` of a call to `storeDeparture` in
src/database.js: the supplied value, else the weekday of the local civil
date of now (`toLocaleDateString` without a fixed timezone). -/
def dowOf (nowMinutes tzOffsetMinutes : Nat) (d : DepartureData) : String :=
  d.day_of_week.getD (weekdayOf (localDay nowMinutes tzOffsetMinutes))

/-- The row the `INSERT` of `storeDeparture` writes. -/
def insertedRow (nowMinutes tzOffsetMinutes : Nat) (db : List Row)
    (d : DepartureData) : Row :=
  ⟨sdOf nowMinutes d, dowOf nowMinutes tzOffsetMinutes d,
   nextDepartureTimeOf d, scheduledTimeOf d, nextEtdOf d, d.platform,
   d.destination, d.operator, isCancelledInt d, d.delay_reason,
   freshCreatedAt db⟩

/-- `storeDeparture` from src/database.js: derive `service_date` from the
UTC date and `day_of_week` from the local civil date when absent, resolve
the identity, fetch the latest snapshot, and append exactly when
`hasChange` holds. -/
def storeDeparture (nowMinutes tzOffsetMinutes : Nat) (db : List Row)
    (d : DepartureData) : List Row :=
  if hasChange (latestFor db (sdOf nowMinutes d) d.destination (scheduledTimeOf d)) d then
    db ++ [insertedRow nowMinutes tzOffsetMinutes db d]
  else db

/-- Ordering used by `ORDER BY created_at DESC`. -/
def geCreated (a b : Row) : Prop := b.created_at ≤ a.created_at

instance : DecidableRel geCreated := fun a b => Nat.decLe b.created_at a.created_at

instance : IsTotal Row geCreated := ⟨fun a b => Nat.le_total b.created_at a.created_at⟩

instance : IsTrans Row geCreated := ⟨fun _ _ _ h1 h2 => Nat.le_trans h2 h1⟩

/-- All rows ordered by `created_at` descending. -/
def sortByCreatedDesc (db : List Row) : List Row := List.insertionSort geCreated db

/-- SQLite `LIMIT n`: a negative bound means no limit. -/
def sqliteLimit (n : Int) (xs : List Row) : List Row :=
  if n < 0 then xs else xs.take n.toNat

/-- `getRecentDepartures` from src/database.js: `if (limit)` is a JavaScript
truthiness test, so a null limit and a zero limit both take the unlimited
branch. -/
def getRecentDepartures (db : List Row) (limit : Option Int) : List Row :=
  match limit with
  | some n => if n ≠ 0 then sqliteLimit n (sortByCreatedDesc db) else sortByCreatedDesc db
  | none => sortByCreatedDesc db

/-- Ascending TEXT sort used by `ORDER BY platform`. -/
def sortStrings (l : List String) : List String :=
  List.insertionSort (fun a b : String => a ≤ b) l

/-- The `WHERE day_of_week = ? AND std = ? AND platform IS NOT NULL` filter
of `getServicePlatformCounts` in src/database.js. -/
def matchingRows (db : List Row) (dayOfWeek std : String) : List Row :=
  db.filter (fun r =>
    decide (r.day_of_week = dayOfWeek) && sqlEqJ r.std (.vstr std) && isNotNullJ r.platform)

/-- The `ROW_NUMBER() OVER (PARTITION BY service_date ORDER BY created_at
DESC) ... WHERE rn = 1` step: one row per distinct `service_date`, the one
with the greatest `created_at` in its partition. -/
def latestPerDate (rows : List Row) : List Row :=
  ((rows.map (fun r => r.service_date)).dedup).filterMap
    (fun sd => argmaxCreated (rows.filter (fun r => decide (r.service_date = sd))))

/-- The `SELECT platform, COUNT(*) ... GROUP BY platform ORDER BY platform`
step over the rank-1 rows. -/
def countsByPlatform (latest : List Row) : List (String × Nat) :=
  (sortStrings ((latest.filterMap (fun r => strOf r.platform)).dedup)).map
    (fun p => (p, (latest.filter (fun r => decide (r.platform = JSVal.vstr p))).length))

/-- `getServicePlatformCounts` from src/database.js (keyed by day of week
and scheduled time only; no exclusion of the current day). -/
def getServicePlatformCounts (db : List Row) (dayOfWeek std : String) :
    List (String × Nat) :=
  countsByPlatform (latestPerDate (matchingRows db dayOfWeek std))

/-- The `WHERE` filter of `getServicePlatformCounts` in src/test-runner.js:
additionally keyed by destination and excluding rows dated `today`. -/
def matchingRowsTR (db : List Row) (dayOfWeek std dest : String) (today : Nat) :
    List Row :=
  db.filter (fun r =>
    decide (r.day_of_week = dayOfWeek) && sqlEqJ r.std (.vstr std) &&
    decide (r.destination = dest) && isNotNullJ r.platform &&
    decide (r.service_date ≠ today))

/-- `getServicePlatformCounts` from src/test-runner.js: keyed by day of
week, scheduled time and destination, excluding snapshots dated `today`. -/
def getServicePlatformCountsTR (db : List Row) (dayOfWeek std dest : String)
    (today : Nat) : List (String × Nat) :=
  countsByPlatform (latestPerDate (matchingRowsTR db dayOfWeek std dest today))

/-- The `WHERE service_date = ? AND std = ? AND destination = ? AND
platform IS NOT NULL` filter of `getLastKnownPlatform`. -/
def lastKnownRows (db : List Row) (sd : Nat) (std dest : String) : List Row :=
  db.filter (fun r =>
    decide (r.service_date = sd) && sqlEqJ r.std (.vstr std) &&
    decide (r.destination = dest) && isNotNullJ r.platform)

/-- `getLastKnownPlatform` from src/test-runner.js: the platform of the most
recent snapshot of the exact identity whose platform is non-null, or none
(`result ? result.platform : null`). -/
def getLastKnownPlatform (db : List Row) (sd : Nat) (std dest : String) :
    Option JSVal :=
  (argmaxCreated (lastKnownRows db sd std dest)).map (fun r => r.platform)

/-- `cleanupOldRecords` from src/database.js with the cutoff (`now` minus
the 3-month horizon) passed explicitly: delete every row with `created_at`
strictly before the cutoff, returning the kept table and the number of rows
removed (`result.changes`). -/
def cleanupOldRecords (db : List Row) (cutoff : Nat) : List Row × Nat :=
  let kept := db.filter (fun r => !decide (r.created_at < cutoff))
  (kept, db.length - kept.length)

/-- The list of valid weekday names checked by the route handlers. -/
def validDays : List String :=
  ["Monday", "Tuesday", "Wednesday", "Thursday", "Friday", "Saturday", "Sunday"]

/-- Minutes part `[0-5][0-9]` of the route handlers' time pattern. -/
def isMinutePair (m1 m2 : Char) : Bool :=
  (decide ('0' ≤ m1) && decide (m1 ≤ '5')) && m2.isDigit

/-- The scheduled-time pattern of the route handlers, the regular expression
anchored `([0-1]?[0-9]|2[0-3]):[0-5][0-9]`: an optional-leading-digit hour
0-23 (a lone hour digit may be any of 0-9), a colon, then minutes 00-59. -/
def timePatternTest (s : String) : Bool :=
  match s.toList with
  | [h, c, m1, m2] => decide (c = ':') && h.isDigit && isMinutePair m1 m2
  | [h1, h2, c, m1, m2] =>
    decide (c = ':') &&
    (((decide (h1 = '0') || decide (h1 = '1')) && h2.isDigit) ||
     (decide (h1 = '2') && decide ('0' ≤ h2) && decide (h2 ≤ '3'))) &&
    isMinutePair m1 m2
  | _ => false

/-- Outcome of an HTTP route handler: a JSON payload or a 400 rejection. -/
inductive ApiResult (α : Type) where
  | ok : α → ApiResult α
  | badRequest : String → ApiResult α
  deriving DecidableEq

/-- The GET platforms route of src/unnamed/part_001 (and, destination
aside, src/server.js): validate the day of week, then the scheduled-time
pattern, and only then run the distribution query; the destination
parameter defaults to "TLH". -/
def platformsHandler (db : List Row) (dayOfWeek std : String)
    (destination : Option String) (today : Nat) : ApiResult (List (String × Nat)) :=
  let dest := destination.getD "TLH"
  if !(validDays.contains dayOfWeek) then
    .badRequest "Invalid day of week"
  else if !(timePatternTest std) then
    .badRequest "Invalid scheduled time format"
  else
    .ok (getServicePlatformCountsTR db dayOfWeek std dest today)

/-- A value is the spec's "absent" value: null or undefined/missing. -/
def isAbsent : JSVal → Bool
  | .vnull => true
  | .vundef => true
  | _ => false

/-- Null-aware equality as the specification words it: null and
undefined/missing are the same absent value; otherwise plain equality. -/
def nullAwareEq (a b : JSVal) : Bool := (isAbsent a && isAbsent b) || decide (a = b)

/-- `shouldAppend` as the specification words it: append exactly when no
prior snapshot exists for the identity, or at least one compared field
(platform, operator, is_cancelled, delay_reason, etd, effective departure
time) differs from the most recent stored snapshot under null-aware
equality. -/
def shouldAppendSpec (db : List Row) (sd : Nat) (dest : String) (st : JSVal)
    (d : DepartureData) : Bool :=
  match latestFor db sd dest st with
  | none => true
  | some r =>
    !(nullAwareEq r.platform d.platform && nullAwareEq r.operator d.operator &&
      decide (r.is_cancelled = isCancelledInt d) &&
      nullAwareEq r.delay_reason d.delay_reason &&
      nullAwareEq r.etd (nextEtdOf d) &&
      nullAwareEq r.departure_time (nextDepartureTimeOf d))

/-- The platform, if any, of the rank-1 (greatest `created_at`) row of one
`service_date` partition. -/
def latestPlatFor (rows : List Row) (sd : Nat) : Option String :=
  (argmaxCreated (rows.filter (fun r => decide (r.service_date = sd)))).bind
    (fun r => strOf r.platform)

/-- A departure record with all compared fields equal to `d` except the
platform. -/
def setPlatform (d : DepartureData) (v : JSVal) : DepartureData :=
  ⟨d.std, d.etd, d.departure_time, v, d.destination, d.operator, d.is_cancelled,
   d.delay_reason, d.service_date, d.day_of_week⟩

/-! Helper lemmas -/

lemma sqlEqJ_vstr_right (v : JSVal) (t : String) :
    sqlEqJ v (.vstr t) = true ↔ v = .vstr t := by
  cases v <;> simp [sqlEqJ]

lemma decide_norm_eq (a b : JSVal) :
    decide (normalizeValue a = normalizeValue b) = nullAwareEq a b := by
  cases a <;> cases b <;> simp [normalizeValue, nullAwareEq, isAbsent]

lemma hasChange_eq_shouldAppendSpec (db : List Row) (sd : Nat) (dest : String)
    (st : JSVal) (d : DepartureData) :
    hasChange (latestFor db sd dest st) d = shouldAppendSpec db sd dest st d := by
  unfold hasChange shouldAppendSpec
  cases latestFor db sd dest st with
  | none => rfl
  | some r => simp [Bool.not_and, decide_not, decide_norm_eq]

lemma argmaxCreated_mem : ∀ {l : List Row} {r : Row}, argmaxCreated l = some r → r ∈ l := by
  intro l
  induction l with
  | nil => intro r h; simp [argmaxCreated] at h
  | cons a l ih =>
    intro r h
    simp only [argmaxCreated] at h
    cases hl : argmaxCreated l with
    | none =>
      rw [hl] at h
      simp only [Option.some.injEq] at h
      simp [h.symm]
    | some b =>
      rw [hl] at h
      simp only [Option.some.injEq] at h
      by_cases hc : a.created_at < b.created_at
      · rw [if_pos hc] at h
        exact List.mem_cons_of_mem _ (h ▸ ih hl)
      · rw [if_neg hc] at h
        simp [h.symm]

lemma argmaxCreated_isSome {l : List Row} (h : l ≠ []) :
    (argmaxCreated l).isSome = true := by
  cases l with
  | nil => cases h rfl
  | cons a l =>
    simp only [argmaxCreated]
    cases argmaxCreated l <;> simp

lemma argmaxCreated_append_last {l : List Row} {x : Row}
    (h : ∀ r ∈ l, r.created_at < x.created_at) :
    argmaxCreated (l ++ [x]) = some x := by
  induction l with
  | nil => rfl
  | cons a l ih =>
    have ha : a.created_at < x.created_at := h a (List.mem_cons_self a l)
    have ih2 := ih (fun r hr => h r (List.mem_cons_of_mem _ hr))
    simp only [List.cons_append, argmaxCreated, List.append_eq, ih2]
    rw [if_pos ha]

lemma argmaxCreated_strict : ∀ {l : List Row} {r : Row}, r ∈ l →
    (∀ r2 ∈ l, r2 ≠ r → r2.created_at < r.created_at) →
    argmaxCreated l = some r := by
  intro l
  induction l with
  | nil => intro r h; cases h
  | cons a l ih =>
    intro r hmem hmax
    by_cases har : a = r
    · subst har
      cases hl : argmaxCreated l with
      | none => simp [argmaxCreated, hl]
      | some b =>
        have hb : b ∈ l := argmaxCreated_mem hl
        by_cases hba : b = a
        · subst hba
          simp [argmaxCreated, hl]
        · have hlt : b.created_at < a.created_at :=
            hmax b (List.mem_cons_of_mem _ hb) hba
          simp [argmaxCreated, hl, Nat.not_lt.mpr (Nat.le_of_lt hlt)]
    · have hmem2 : r ∈ l := by
        rcases List.mem_cons.mp hmem with h1 | h2
        · exact absurd h1.symm har
        · exact h2
      have ih2 := ih hmem2 (fun r2 h2 hne => hmax r2 (List.mem_cons_of_mem _ h2) hne)
      have hlt : a.created_at < r.created_at :=
        hmax a (List.mem_cons_self a l) har
      simp [argmaxCreated, ih2, hlt]

lemma mem_le_maxCreated : ∀ {db : List Row} {r : Row}, r ∈ db →
    r.created_at ≤ maxCreated db := by
  intro db
  induction db with
  | nil => intro r h; cases h
  | cons a l ih =>
    intro r h
    rcases List.mem_cons.mp h with rfl | h2
    · exact le_max_left _ _
    · exact le_trans (ih h2) (le_max_right _ _)

lemma filter_platform_length_eq_count (p : String) : ∀ (l : List Row),
    (l.filter (fun r => decide (r.platform = JSVal.vstr p))).length =
      (l.filterMap (fun r => strOf r.platform)).count p := by
  intro l
  induction l with
  | nil => rfl
  | cons a l ih =>
    cases hp : a.platform with
    | vnull => simp [List.filter_cons, List.filterMap_cons, hp, strOf, ih]
    | vundef => simp [List.filter_cons, List.filterMap_cons, hp, strOf, ih]
    | vstr s =>
      by_cases hsp : s = p
      · subst hsp
        simp [List.filter_cons, List.filterMap_cons, hp, strOf, ih, List.count_cons]
      · simp [List.filter_cons, List.filterMap_cons, hp, strOf, ih, List.count_cons,
          hsp, Ne.symm hsp]

lemma filterMap_length_of_all_some {α β : Type} (f : α → Option β) :
    ∀ (l : List α), (∀ a ∈ l, (f a).isSome) → (l.filterMap f).length = l.length := by
  intro l
  induction l with
  | nil => intro _; rfl
  | cons a l ih =>
    intro h
    have ha := h a (List.mem_cons_self a l)
    cases hfa : f a with
    | none => rw [hfa] at ha; cases ha
    | some b =>
      simp only [List.filterMap_cons, hfa, List.length_cons]
      rw [ih (fun x hx => h x (List.mem_cons_of_mem _ hx))]

lemma filterMap_filter_length {α : Type} (f : α → Option Row) (q : Row → Bool) :
    ∀ (l : List α),
      ((l.filterMap f).filter q).length =
        (l.filter (fun a => ((f a).map q).getD false)).length := by
  intro l
  induction l with
  | nil => rfl
  | cons a l ih =>
    cases hfa : f a with
    | none => simp [List.filterMap_cons, List.filter_cons, hfa, ih]
    | some r =>
      cases hq : q r <;>
        simp [List.filterMap_cons, List.filter_cons, hfa, hq, ih]

@[simp] lemma normalizeValue_vstr (s : String) : normalizeValue (.vstr s) = .vstr s := rfl

@[simp] lemma normalizeValue_vnull : normalizeValue .vnull = .vnull := rfl

@[simp] lemma normalizeValue_vundef : normalizeValue .vundef = .vnull := rfl

lemma argmaxCreated_is_max : ∀ {l : List Row} {r : Row}, argmaxCreated l = some r →
    ∀ x ∈ l, x.created_at ≤ r.created_at := by
  intro l
  induction l with
  | nil => intro r h; simp [argmaxCreated] at h
  | cons a l ih =>
    intro r h x hx
    simp only [argmaxCreated] at h
    cases hl : argmaxCreated l with
    | none =>
      rw [hl] at h
      simp only [Option.some.injEq] at h
      subst h
      have hnil : l = [] := by
        cases l with
        | nil => rfl
        | cons b l2 =>
          have hs := argmaxCreated_isSome (l := b :: l2) (by simp)
          rw [hl] at hs
          cases hs
      subst hnil
      rcases List.mem_cons.mp hx with rfl | h2
      · exact le_refl _
      · cases h2
    | some b =>
      rw [hl] at h
      simp only [Option.some.injEq] at h
      rcases List.mem_cons.mp hx with rfl | h2
      · by_cases hc : x.created_at < b.created_at
        · rw [if_pos hc] at h
          exact h ▸ Nat.le_of_lt hc
        · rw [if_neg hc] at h
          exact h ▸ le_refl _
      · have hxb : x.created_at ≤ b.created_at := ih hl x h2
        by_cases hc : a.created_at < b.created_at
        · rw [if_pos hc] at h
          exact h ▸ hxb
        · rw [if_neg hc] at h
          exact h ▸ le_trans hxb (Nat.le_of_not_lt hc)

lemma insertedRow_created_gt (nowM off : Nat) (db : List Row) (d : DepartureData) :
    ∀ r ∈ db, r.created_at < (insertedRow nowM off db d).created_at :=
  fun _ hr => Nat.lt_succ_of_le (mem_le_maxCreated hr)

lemma sqlEqJ_self_of_truthy {v : JSVal} (h : v.truthy = true) : sqlEqJ v v = true := by
  cases v <;> simp_all [JSVal.truthy, sqlEqJ]

lemma latestFor_append_inserted (nowM off : Nat) (db : List Row) (d : DepartureData)
    (h : (scheduledTimeOf d).truthy = true) :
    latestFor (db ++ [insertedRow nowM off db d]) (sdOf nowM d) d.destination
      (scheduledTimeOf d) = some (insertedRow nowM off db d) := by
  unfold latestFor identityRows
  rw [List.filter_append]
  have hfil : List.filter (fun r : Row =>
      decide (r.service_date = sdOf nowM d) && decide (r.destination = d.destination) &&
      sqlEqJ r.std (scheduledTimeOf d)) [insertedRow nowM off db d] =
      [insertedRow nowM off db d] := by
    simp [insertedRow, sqlEqJ_self_of_truthy h]
  rw [hfil]
  exact argmaxCreated_append_last (fun r hr =>
    insertedRow_created_gt nowM off db d r (List.mem_of_mem_filter hr))

lemma hasChange_some_insertedRow (nowM off : Nat) (db : List Row) (d : DepartureData) :
    hasChange (some (insertedRow nowM off db d)) d = false := by
  simp [hasChange, insertedRow]

lemma storeDeparture_of_hasChange_false {nowM off : Nat} {db : List Row}
    {d : DepartureData}
    (h : hasChange (latestFor db (sdOf nowM d) d.destination (scheduledTimeOf d)) d = false) :
    storeDeparture nowM off db d = db := by
  unfold storeDeparture
  rw [h]
  simp

lemma storeDeparture_of_hasChange_true {nowM off : Nat} {db : List Row}
    {d : DepartureData}
    (h : hasChange (latestFor db (sdOf nowM d) d.destination (scheduledTimeOf d)) d = true) :
    storeDeparture nowM off db d = db ++ [insertedRow nowM off db d] := by
  unfold storeDeparture
  rw [h]
  simp

lemma storeDeparture_nil (nowM off : Nat) (d : DepartureData) :
    storeDeparture nowM off [] d = [insertedRow nowM off [] d] := rfl

lemma storeDeparture_idem (nowM off off2 : Nat) (db : List Row) (d : DepartureData)
    (h : (scheduledTimeOf d).truthy = true) :
    storeDeparture nowM off2 (storeDeparture nowM off db d) d =
      storeDeparture nowM off db d := by
  cases hc : hasChange (latestFor db (sdOf nowM d) d.destination (scheduledTimeOf d)) d with
  | false =>
    rw [storeDeparture_of_hasChange_false hc, storeDeparture_of_hasChange_false hc]
  | true =>
    rw [storeDeparture_of_hasChange_true hc]
    apply storeDeparture_of_hasChange_false
    rw [latestFor_append_inserted nowM off db d h]
    exact hasChange_some_insertedRow nowM off db d

lemma map_snd_keyed_sum (l : List String) (g : String → Nat) :
    ((l.map (fun p => (p, g p))).map (fun pr => pr.2)).sum = (l.map g).sum := by
  rw [List.map_map]
  rfl

lemma filter_keyed_sum (p : String) (g : String → Nat) :
    ∀ (l : List String), l.Nodup →
      (((l.map (fun x => (x, g x))).filter (fun pr => decide (pr.1 = p))).map
        (fun pr => pr.2)).sum = if p ∈ l then g p else 0 := by
  intro l
  induction l with
  | nil => intro _; simp
  | cons a l ih =>
    intro hnd
    rw [List.nodup_cons] at hnd
    obtain ⟨hna, hndl⟩ := hnd
    by_cases hap : a = p
    · subst hap
      simp [List.filter_cons, ih hndl, hna]
    · simp [List.filter_cons, hap, ih hndl, Ne.symm hap]

lemma option_map_platform_getD (p : String) (o : Option Row) :
    ((o.map (fun r => decide (r.platform = JSVal.vstr p))).getD false) =
      decide ((o.bind (fun r => strOf r.platform)) = some p) := by
  cases o with
  | none => simp
  | some r => cases hr : r.platform <;> simp [strOf, hr]

lemma mem_matching_platform_notnull {db : List Row} {dow st : String} {r : Row}
    (h : r ∈ matchingRows db dow st) : isNotNullJ r.platform = true := by
  have hpred := List.of_mem_filter h
  simp only [Bool.and_eq_true] at hpred
  exact hpred.2

lemma strOf_isSome_of_notnull {v : JSVal} (h : isNotNullJ v = true) :
    (strOf v).isSome = true := by
  cases v <;> simp_all [isNotNullJ, strOf]

lemma latestPerDate_all_notnull {db : List Row} {dow st : String} {r : Row}
    (h : r ∈ latestPerDate (matchingRows db dow st)) : isNotNullJ r.platform = true := by
  unfold latestPerDate at h
  rcases List.mem_filterMap.mp h with ⟨sd, _, hf⟩
  exact mem_matching_platform_notnull (List.mem_of_mem_filter (argmaxCreated_mem hf))

lemma latestPerDate_length (rows : List Row) :
    (latestPerDate rows).length = ((rows.map (fun r => r.service_date)).dedup).length := by
  unfold latestPerDate
  apply filterMap_length_of_all_some
  intro sd hsd
  rcases List.mem_map.mp (List.mem_dedup.mp hsd) with ⟨r, hr, hrsd⟩
  exact argmaxCreated_isSome
    (List.ne_nil_of_mem (List.mem_filter.mpr ⟨hr, by simp [hrsd]⟩))

lemma cnt_eq_dates_count (rows : List Row) (p : String) :
    ((latestPerDate rows).filter (fun r => decide (r.platform = JSVal.vstr p))).length =
      (((rows.map (fun r => r.service_date)).dedup).filter
        (fun sd => decide (latestPlatFor rows sd = some p))).length := by
  unfold latestPerDate
  rw [filterMap_filter_length]
  congr 1
  apply List.filter_congr
  intro sd _
  unfold latestPlatFor
  exact option_map_platform_getD p _

/-! Claim theorems -/

/-- C1: `storeDeparture` appends a new row iff either no prior snapshot
exists for the identity (service_date, destination, scheduled_time), or at
least one compared field (platform, operator, is_cancelled, delay_reason,
etd, effective departure_time) differs from the most recent stored snapshot
under null-aware equality, where null and undefined/missing are the same
absent value; storing the exact same snapshot fields twice in a row appends
exactly one row; a null platform against a stored null platform is
unchanged (no append), while "4" against a stored null platform is changed
(append). -/
theorem store_append_iff_null_aware_change :
    (∀ (nowM off : Nat) (db : List Row) (d : DepartureData),
      ((storeDeparture nowM off db d).length = db.length + 1 ↔
        shouldAppendSpec db (sdOf nowM d) d.destination (scheduledTimeOf d) d = true) ∧
      (shouldAppendSpec db (sdOf nowM d) d.destination (scheduledTimeOf d) d = false →
        storeDeparture nowM off db d = db)) ∧
    (∀ (nowM off off2 : Nat) (db : List Row) (d : DepartureData),
      (scheduledTimeOf d).truthy = true →
        storeDeparture nowM off2 (storeDeparture nowM off db d) d =
          storeDeparture nowM off db d) ∧
    (∀ (nowM off : Nat) (d : DepartureData), (scheduledTimeOf d).truthy = true →
      (storeDeparture nowM off (storeDeparture nowM off [] d) d).length = 1) ∧
    (storeDeparture 0 0
        [⟨0, "Thursday", .vstr "14:45", .vstr "14:45", .vnull, .vnull, "TLH",
          .vstr "GWR", 0, .vnull, 1⟩]
        ⟨.vstr "14:45", .vnull, .vstr "14:45", .vnull, "TLH", .vstr "GWR",
         false, .vnull, some 0, some "Thursday"⟩ =
      [⟨0, "Thursday", .vstr "14:45", .vstr "14:45", .vnull, .vnull, "TLH",
        .vstr "GWR", 0, .vnull, 1⟩]) ∧
    ((storeDeparture 0 0
        [⟨0, "Thursday", .vstr "14:45", .vstr "14:45", .vnull, .vnull, "TLH",
          .vstr "GWR", 0, .vnull, 1⟩]
        ⟨.vstr "14:45", .vnull, .vstr "14:45", .vstr "4", "TLH", .vstr "GWR",
         false, .vnull, some 0, some "Thursday"⟩).length = 2) := by
  refine ⟨?_, ?_, ?_, by decide, by decide⟩
  · intro nowM off db d
    constructor
    · rw [← hasChange_eq_shouldAppendSpec]
      unfold storeDeparture
      cases hc : hasChange (latestFor db (sdOf nowM d) d.destination (scheduledTimeOf d)) d with
      | true => simp
      | false => simp
    · intro hspec
      apply storeDeparture_of_hasChange_false
      rw [hasChange_eq_shouldAppendSpec]
      exact hspec
  · intro nowM off off2 db d h
    exact storeDeparture_idem nowM off off2 db d h
  · intro nowM off d h
    rw [storeDeparture_idem nowM off off [] d h]
    rw [storeDeparture_nil]
    rfl

/-- Witness for the dedup-idempotence part of C1 at a concrete record. -/
theorem store_append_iff_null_aware_change_witness :
    (storeDeparture 5 3
      (storeDeparture 5 3 []
        ⟨.vstr "10:00", .vnull, .vstr "10:00", .vstr "7", "TLH", .vstr "GWR",
         false, .vnull, some 2, some "Saturday"⟩)
      ⟨.vstr "10:00", .vnull, .vstr "10:00", .vstr "7", "TLH", .vstr "GWR",
       false, .vnull, some 2, some "Saturday"⟩).length = 1 :=
  store_append_iff_null_aware_change.2.2.1 5 3
    ⟨.vstr "10:00", .vnull, .vstr "10:00", .vstr "7", "TLH", .vstr "GWR",
     false, .vnull, some 2, some "Saturday"⟩ (by decide)

/-- C4: dedup compares only against the immediately preceding snapshot of
the identity: for any record and any two distinct platform values p and q,
storing platform p, then q, then p again produces three rows. -/
theorem flapping_appends_three_rows :
    ∀ (nowM off : Nat) (d : DepartureData) (p q : String), p ≠ q →
      (storeDeparture nowM off
        (storeDeparture nowM off
          (storeDeparture nowM off [] (setPlatform d (.vstr p)))
          (setPlatform d (.vstr q)))
        (setPlatform d (.vstr p))).length = 3 := by
  intro nowM off d p q hpq
  rw [storeDeparture_nil]
  set r1 := insertedRow nowM off [] (setPlatform d (.vstr p)) with hr1
  have hkey2 : hasChange
      (latestFor [r1] (sdOf nowM (setPlatform d (.vstr q)))
        (setPlatform d (.vstr q)).destination
        (scheduledTimeOf (setPlatform d (.vstr q)))) (setPlatform d (.vstr q)) = true := by
    cases hL : latestFor [r1] (sdOf nowM (setPlatform d (.vstr q)))
        (setPlatform d (.vstr q)).destination
        (scheduledTimeOf (setPlatform d (.vstr q))) with
    | none => rfl
    | some r =>
      have hr : r ∈ [r1] := List.mem_of_mem_filter (argmaxCreated_mem hL)
      simp only [List.mem_singleton] at hr
      subst hr
      simp [hasChange, hr1, insertedRow, setPlatform, hpq]
  rw [storeDeparture_of_hasChange_true hkey2]
  set r2 := insertedRow nowM off [r1] (setPlatform d (.vstr q)) with hr2
  have hkey3 : hasChange
      (latestFor ([r1] ++ [r2]) (sdOf nowM (setPlatform d (.vstr p)))
        (setPlatform d (.vstr p)).destination
        (scheduledTimeOf (setPlatform d (.vstr p)))) (setPlatform d (.vstr p)) = true := by
    cases hL : latestFor ([r1] ++ [r2]) (sdOf nowM (setPlatform d (.vstr p)))
        (setPlatform d (.vstr p)).destination
        (scheduledTimeOf (setPlatform d (.vstr p))) with
    | none => rfl
    | some r =>
      have hrf := argmaxCreated_mem hL
      have hr : r ∈ [r1] ++ [r2] := List.mem_of_mem_filter hrf
      simp only [List.mem_append, List.mem_singleton] at hr
      rcases hr with hr | hr
      · -- r = r1 is impossible: r2 matches the same identity and is newer
        exfalso
        subst hr
        unfold identityRows at hrf
        have hpred1 := List.of_mem_filter hrf
        have hpred2 : (decide (r2.service_date = sdOf nowM (setPlatform d (.vstr p))) &&
            decide (r2.destination = (setPlatform d (.vstr p)).destination) &&
            sqlEqJ r2.std (scheduledTimeOf (setPlatform d (.vstr p)))) = true := hpred1
        have hr2mem : r2 ∈ identityRows ([r1] ++ [r2])
            (sdOf nowM (setPlatform d (.vstr p)))
            (setPlatform d (.vstr p)).destination
            (scheduledTimeOf (setPlatform d (.vstr p))) :=
          List.mem_filter.mpr ⟨by simp, hpred2⟩
        have hle : r2.created_at ≤ r1.created_at := argmaxCreated_is_max hL r2 hr2mem
        have hlt : r1.created_at < r2.created_at := by
          simp [hr1, hr2, insertedRow, freshCreatedAt, maxCreated]
        exact absurd hle (Nat.not_le.mpr hlt)
      · subst hr
        simp [hasChange, hr2, insertedRow, setPlatform, Ne.symm hpq]
  rw [storeDeparture_of_hasChange_true hkey3]
  rfl

/-- Witness for C4 at a concrete record and platforms 4 and 5. -/
theorem flapping_appends_three_rows_witness :
    (storeDeparture 0 0
      (storeDeparture 0 0
        (storeDeparture 0 0 []
          (setPlatform ⟨.vstr "14:45", .vnull, .vstr "14:45", .vnull, "TLH",
            .vstr "GWR", false, .vnull, some 0, some "Thursday"⟩ (.vstr "4")))
        (setPlatform ⟨.vstr "14:45", .vnull, .vstr "14:45", .vnull, "TLH",
          .vstr "GWR", false, .vnull, some 0, some "Thursday"⟩ (.vstr "5")))
      (setPlatform ⟨.vstr "14:45", .vnull, .vstr "14:45", .vnull, "TLH",
        .vstr "GWR", false, .vnull, some 0, some "Thursday"⟩ (.vstr "4"))).length = 3 :=
  flapping_appends_three_rows 0 0
    ⟨.vstr "14:45", .vnull, .vstr "14:45", .vnull, "TLH", .vstr "GWR",
      false, .vnull, some 0, some "Thursday"⟩ "4" "5" (by decide)

/-- C8 (code bug): rows written by the ingestion path can carry a
`day_of_week` that is not the weekday of their `service_date`.  First
failing input: nothing supplied, wall clock 23:30 UTC with the process
timezone one hour ahead of UTC — the UTC date (day 0, a Thursday) is
stored with the local weekday (Friday).  Second failing input: a caller
supplies `service_date` (day 3, a Sunday) without `day_of_week`, and the
weekday is derived from the current date (day 0, a Thursday) instead of
from the supplied date. -/
theorem stored_day_of_week_contradicts_service_date :
    ((storeDeparture 1410 60 []
        ⟨.vstr "14:45", .vnull, .vstr "14:45", .vstr "4", "TLH", .vstr "GWR",
         false, .vnull, none, none⟩).all
      (fun r => decide (r.day_of_week = weekdayOf r.service_date)) = false) ∧
    ((storeDeparture 0 0 []
        ⟨.vstr "14:45", .vnull, .vstr "14:45", .vstr "4", "TLH", .vstr "GWR",
         false, .vnull, some 3, none⟩).all
      (fun r => decide (r.day_of_week = weekdayOf r.service_date)) = false) := by
  constructor <;> decide

/-- C10: `storeDeparture` coerces falsy time inputs before comparison and
storage: a falsy etd (empty string, null, undefined) becomes null, so an
empty-string etd against a stored null etd is unchanged and appends no
row; a falsy std falls back to `departure_time` as the scheduled time. -/
theorem falsy_time_normalization :
    (∀ d : DepartureData, d.etd.truthy = false → nextEtdOf d = .vnull) ∧
    (storeDeparture 0 0
        [⟨0, "Thursday", .vstr "14:45", .vstr "14:45", .vnull, .vstr "4", "TLH",
          .vstr "GWR", 0, .vnull, 1⟩]
        ⟨.vstr "14:45", .vstr "", .vstr "14:45", .vstr "4", "TLH", .vstr "GWR",
         false, .vnull, some 0, some "Thursday"⟩ =
      [⟨0, "Thursday", .vstr "14:45", .vstr "14:45", .vnull, .vstr "4", "TLH",
        .vstr "GWR", 0, .vnull, 1⟩]) ∧
    (∀ d : DepartureData, d.std.truthy = false → scheduledTimeOf d = d.departure_time) ∧
    ((storeDeparture 0 0 []
        ⟨.vundef, .vnull, .vstr "09:15", .vstr "4", "TLH", .vstr "GWR",
         false, .vnull, some 0, some "Thursday"⟩).map (fun r => r.std) =
      [.vstr "09:15"]) := by
  refine ⟨?_, by decide, ?_, by decide⟩
  · intro d h
    simp [nextEtdOf, jsOr, h]
  · intro d h
    simp [scheduledTimeOf, jsOr, h]

/-- Witness for C10 at a concrete record with an empty-string etd and an
undefined std. -/
theorem falsy_time_normalization_witness :
    nextEtdOf ⟨.vstr "10:00", .vstr "", .vstr "10:00", .vnull, "TLH", .vnull,
      false, .vnull, none, none⟩ = .vnull ∧
    scheduledTimeOf ⟨.vundef, .vnull, .vstr "09:15", .vnull, "TLH", .vnull,
      false, .vnull, none, none⟩ = .vstr "09:15" :=
  ⟨falsy_time_normalization.1
    ⟨.vstr "10:00", .vstr "", .vstr "10:00", .vnull, "TLH", .vnull,
      false, .vnull, none, none⟩ (by decide),
   falsy_time_normalization.2.2.1
    ⟨.vundef, .vnull, .vstr "09:15", .vnull, "TLH", .vnull,
      false, .vnull, none, none⟩ (by decide)⟩

/-- C7: the retention purge deletes exactly the rows whose `created_at`
precedes the cutoff: none of them remains, every row at or after the
cutoff is kept (in order, as a sublist), and the returned count is the
exact number of removed rows — zero when nothing qualifies. -/
theorem cleanup_retention :
    ∀ (db : List Row) (cutoff : Nat),
      (∀ r ∈ (cleanupOldRecords db cutoff).1, ¬ r.created_at < cutoff) ∧
      (∀ r ∈ db, ¬ r.created_at < cutoff → r ∈ (cleanupOldRecords db cutoff).1) ∧
      List.Sublist (cleanupOldRecords db cutoff).1 db ∧
      ((cleanupOldRecords db cutoff).2 =
        (db.filter (fun r => decide (r.created_at < cutoff))).length) ∧
      ((∀ r ∈ db, ¬ r.created_at < cutoff) → (cleanupOldRecords db cutoff).2 = 0) := by
  intro db cutoff
  have hcount : (cleanupOldRecords db cutoff).2 =
      (db.filter (fun r => decide (r.created_at < cutoff))).length := by
    show db.length -
        (db.filter (fun r => !decide (r.created_at < cutoff))).length = _
    rw [@List.length_eq_length_filter_add Row db (fun r => decide (r.created_at < cutoff))]
    omega
  refine ⟨?_, ?_, List.filter_sublist db, hcount, ?_⟩
  · intro r hr
    have := List.of_mem_filter hr
    simpa using this
  · intro r hr hc
    exact List.mem_filter.mpr ⟨hr, by simpa using hc⟩
  · intro hall
    rw [hcount]
    rw [List.length_eq_zero]
    rw [List.filter_eq_nil_iff]
    intro r hr
    simpa using hall r hr

/-- Witness for C7: a concrete surviving row and a zero count. -/
theorem cleanup_retention_witness :
    (⟨0, "Thursday", .vnull, .vnull, .vnull, .vnull, "TLH", .vnull, 0, .vnull, 7⟩ : Row) ∈
      (cleanupOldRecords
        [⟨0, "Thursday", .vnull, .vnull, .vnull, .vnull, "TLH", .vnull, 0, .vnull, 7⟩] 5).1 :=
  (cleanup_retention
    [⟨0, "Thursday", .vnull, .vnull, .vnull, .vnull, "TLH", .vnull, 0, .vnull, 7⟩] 5).2.1
    ⟨0, "Thursday", .vnull, .vnull, .vnull, .vnull, "TLH", .vnull, 0, .vnull, 7⟩
    (by decide) (by decide)

/-- C2: snapshots dated the exclude date contribute nothing to the
distribution query of src/test-runner.js — deleting every row dated
`today` from the table leaves the result unchanged. -/
theorem counts_exclude_today_rows :
    ∀ (db : List Row) (dayOfWeek std dest : String) (today : Nat),
      getServicePlatformCountsTR (db.filter (fun r => decide (r.service_date ≠ today)))
          dayOfWeek std dest today =
        getServicePlatformCountsTR db dayOfWeek std dest today := by
  intro db dow st dest today
  unfold getServicePlatformCountsTR matchingRowsTR
  rw [List.filter_filter]
  congr 2
  apply List.filter_congr
  intro r _
  exact (by decide : ∀ x e : Bool, ((x && e) && e) = (x && e)) _ _

/-- C9: `getRecentDepartures` tests the limit for truthiness, so a limit of
0 behaves like no limit: it returns every stored row ordered by
`created_at` descending; a non-positive limit never truncates (SQLite
treats a negative LIMIT as unlimited), and only a strictly positive limit
takes a prefix. -/
theorem recent_limit_zero_returns_all :
    (∀ db : List Row, getRecentDepartures db (some 0) = getRecentDepartures db none) ∧
    (∀ db : List Row, List.Perm (getRecentDepartures db none) db ∧
      List.Sorted geCreated (getRecentDepartures db none)) ∧
    (∀ (db : List Row) (n : Int), n ≤ 0 →
      getRecentDepartures db (some n) = getRecentDepartures db none) ∧
    (∀ (db : List Row) (n : Int), 0 < n →
      getRecentDepartures db (some n) = (sortByCreatedDesc db).take n.toNat) := by
  refine ⟨?_, ?_, ?_, ?_⟩
  · intro db
    rfl
  · intro db
    exact ⟨List.perm_insertionSort geCreated db, List.sorted_insertionSort geCreated db⟩
  · intro db n h
    by_cases h0 : n = 0
    · subst h0
      rfl
    · have hneg : n < 0 := lt_of_le_of_ne h h0
      simp [getRecentDepartures, h0, sqliteLimit, hneg]
  · intro db n h
    have h0 : n ≠ 0 := by omega
    have hneg : ¬ n < 0 := by omega
    simp [getRecentDepartures, h0, sqliteLimit, hneg]

/-- Witness for C9 at a concrete table and limit. -/
theorem recent_limit_zero_returns_all_witness :
    getRecentDepartures [] (some 1) = (sortByCreatedDesc []).take (Int.toNat 1) :=
  recent_limit_zero_returns_all.2.2.2 [] 1 (by decide)

/-- C6: the platforms route rejects, independently of the stored data, any
day of week that is not one of the seven English weekday names and any
scheduled time not matching the 24-hour H:MM/HH:MM pattern, and otherwise
runs the distribution query; "Funday" and "25:99" are both rejected. -/
theorem platforms_route_validation :
    (∀ (db db2 : List Row) (dow st : String) (dest : Option String) (today : Nat),
      ¬ (dow ∈ validDays ∧ timePatternTest st = true) →
        platformsHandler db dow st dest today = platformsHandler db2 dow st dest today) ∧
    (∀ (db : List Row) (dow st : String) (dest : Option String) (today : Nat),
      ¬ (dow ∈ validDays ∧ timePatternTest st = true) →
        ∃ msg, platformsHandler db dow st dest today = .badRequest msg) ∧
    (∀ (db : List Row) (dow st : String) (dest : Option String) (today : Nat),
      dow ∈ validDays → timePatternTest st = true →
        platformsHandler db dow st dest today =
          .ok (getServicePlatformCountsTR db dow st (dest.getD "TLH") today)) ∧
    (∀ (db : List Row) (today : Nat),
      platformsHandler db "Funday" "14:45" none today = .badRequest "Invalid day of week") ∧
    (∀ (db : List Row) (today : Nat),
      platformsHandler db "Monday" "25:99" none today =
        .badRequest "Invalid scheduled time format") := by
  have hbranch : ∀ (db : List Row) (dow st : String) (dest : Option String) (today : Nat),
      ¬ (dow ∈ validDays ∧ timePatternTest st = true) →
      platformsHandler db dow st dest today =
        (if validDays.contains dow = false then .badRequest "Invalid day of week"
         else .badRequest "Invalid scheduled time format") := by
    intro db dow st dest today hnot
    unfold platformsHandler
    cases hA : validDays.contains dow with
    | false => simp [hA]
    | true =>
      have hmem : dow ∈ validDays := List.elem_iff.mp hA
      have hB : timePatternTest st = false := by
        cases hB2 : timePatternTest st with
        | false => rfl
        | true => exact absurd ⟨hmem, hB2⟩ hnot
      simp [hA, hB]
  refine ⟨?_, ?_, ?_, ?_, ?_⟩
  · intro db db2 dow st dest today hnot
    rw [hbranch db dow st dest today hnot, hbranch db2 dow st dest today hnot]
  · intro db dow st dest today hnot
    rw [hbranch db dow st dest today hnot]
    cases validDays.contains dow with
    | false => exact ⟨"Invalid day of week", rfl⟩
    | true => exact ⟨"Invalid scheduled time format", rfl⟩
  · intro db dow st dest today hmem hpat
    have hA : validDays.contains dow = true := List.elem_iff.mpr hmem
    simp [platformsHandler, hA, hpat, hmem]
  · intro db today
    have hA : validDays.contains "Funday" = false := by decide
    have hmem4 : ¬ ("Funday" ∈ validDays) := by decide
    simp [platformsHandler, hA, hmem4]
  · intro db today
    have hA : validDays.contains "Monday" = true := by decide
    have hmem5 : "Monday" ∈ validDays := by decide
    have hB : timePatternTest "25:99" = false := by decide
    simp [platformsHandler, hA, hmem5, hB]

/-- Witness for C6 at concrete valid and invalid inputs. -/
theorem platforms_route_validation_witness :
    platformsHandler [] "Monday" "14:45" none 0 =
      ApiResult.ok (getServicePlatformCountsTR [] "Monday" "14:45" "TLH" 0) :=
  platforms_route_validation.2.2.1 [] "Monday" "14:45" none 0 (by decide) (by decide)

/-- C5: `getLastKnownPlatform` returns the platform of the most recent
snapshot of the exact identity whose platform is non-null — snapshots with
a null platform are ignored, so a newer null-platform snapshot does not
shadow an older assignment — and returns none when no non-null-platform
snapshot exists for the identity. -/
theorem last_known_platform_spec :
    (∀ (db : List Row) (sd : Nat) (std dest : String) (r : Row) (p : String),
      r ∈ db → r.service_date = sd → r.std = .vstr std → r.destination = dest →
      r.platform = .vstr p →
      (∀ r2 ∈ db, r2.service_date = sd → r2.std = .vstr std → r2.destination = dest →
        isNotNullJ r2.platform = true → r2 ≠ r → r2.created_at < r.created_at) →
      getLastKnownPlatform db sd std dest = some (.vstr p)) ∧
    (∀ (db : List Row) (sd : Nat) (std dest : String),
      (∀ r ∈ db, r.service_date = sd → r.std = .vstr std → r.destination = dest →
        isNotNullJ r.platform = false) →
      getLastKnownPlatform db sd std dest = none) ∧
    (getLastKnownPlatform
      [⟨0, "Thursday", .vstr "14:45", .vstr "14:45", .vnull, .vstr "4", "TLH",
        .vstr "GWR", 0, .vnull, 1⟩,
       ⟨0, "Thursday", .vstr "14:45", .vstr "14:45", .vnull, .vnull, "TLH",
        .vstr "GWR", 0, .vnull, 2⟩] 0 "14:45" "TLH" = some (.vstr "4")) := by
  refine ⟨?_, ?_, by decide⟩
  · intro db sd std dest r p hmem hsd hstd hdest hplat hmax
    unfold getLastKnownPlatform
    have hrmem : r ∈ lastKnownRows db sd std dest := by
      apply List.mem_filter.mpr
      refine ⟨hmem, ?_⟩
      simp [hsd, hstd, hdest, hplat, sqlEqJ, isNotNullJ]
    have harg : argmaxCreated (lastKnownRows db sd std dest) = some r := by
      apply argmaxCreated_strict hrmem
      intro r2 h2 hne
      have h2mem : r2 ∈ db := List.mem_of_mem_filter h2
      have h2pred := List.of_mem_filter h2
      simp only [Bool.and_eq_true, decide_eq_true_eq] at h2pred
      obtain ⟨⟨⟨h2sd, h2std⟩, h2dest⟩, h2plat⟩ := h2pred
      exact hmax r2 h2mem h2sd ((sqlEqJ_vstr_right _ _).mp h2std) h2dest h2plat hne
    rw [harg]
    simp [hplat]
  · intro db sd std dest hall
    unfold getLastKnownPlatform
    have hnil : lastKnownRows db sd std dest = [] := by
      unfold lastKnownRows
      rw [List.filter_eq_nil_iff]
      intro r hr hcontra
      simp only [Bool.and_eq_true, decide_eq_true_eq] at hcontra
      obtain ⟨⟨⟨h1, h2⟩, h3⟩, h4⟩ := hcontra
      have hz := hall r hr h1 ((sqlEqJ_vstr_right _ _).mp h2) h3
      rw [hz] at h4
      cases h4
    rw [hnil]
    rfl

/-- Witness for C5: the fallback resolves through a newer null-platform
snapshot to the older non-null one. -/
theorem last_known_platform_spec_witness :
    getLastKnownPlatform
      [⟨0, "Thursday", .vstr "14:45", .vstr "14:45", .vnull, .vstr "4", "TLH",
        .vstr "GWR", 0, .vnull, 1⟩,
       ⟨0, "Thursday", .vstr "14:45", .vstr "14:45", .vnull, .vnull, "TLH",
        .vstr "GWR", 0, .vnull, 2⟩] 0 "14:45" "TLH" = some (.vstr "4") :=
  last_known_platform_spec.1
    [⟨0, "Thursday", .vstr "14:45", .vstr "14:45", .vnull, .vstr "4", "TLH",
      .vstr "GWR", 0, .vnull, 1⟩,
     ⟨0, "Thursday", .vstr "14:45", .vstr "14:45", .vnull, .vnull, "TLH",
      .vstr "GWR", 0, .vnull, 2⟩] 0 "14:45" "TLH"
    ⟨0, "Thursday", .vstr "14:45", .vstr "14:45", .vnull, .vstr "4", "TLH",
      .vstr "GWR", 0, .vnull, 1⟩ "4"
    (by decide) rfl rfl rfl rfl (by decide)

/-- C3: the distribution query counts every `service_date` that has at
least one matching non-null-platform snapshot exactly once (the total of
all counts is the number of such dates), under the platform of the
snapshot with the greatest `created_at` among that date's non-null-platform
snapshots; three same-day snapshots with platforms 4, 4, 5 in capture
order count the day once, under platform 5. -/
theorem counts_latest_per_day :
    (∀ (db : List Row) (dow st : String),
      ((getServicePlatformCounts db dow st).map (fun pr => pr.2)).sum =
        ((matchingRows db dow st).map (fun r => r.service_date)).dedup.length) ∧
    (∀ (db : List Row) (dow st p : String),
      (((getServicePlatformCounts db dow st).filter (fun pr => decide (pr.1 = p))).map
          (fun pr => pr.2)).sum =
        (((matchingRows db dow st).map (fun r => r.service_date)).dedup.filter
          (fun sd => decide (latestPlatFor (matchingRows db dow st) sd = some p))).length) ∧
    (∀ (db : List Row) (dow st : String) (sd : Nat) (r : Row),
      r ∈ matchingRows db dow st → r.service_date = sd →
      (∀ r2 ∈ matchingRows db dow st, r2.service_date = sd → r2 ≠ r →
        r2.created_at < r.created_at) →
      latestPlatFor (matchingRows db dow st) sd = strOf r.platform) ∧
    (getServicePlatformCounts
      [⟨10, "Monday", .vstr "14:45", .vstr "14:45", .vnull, .vstr "4", "TLH",
        .vstr "GWR", 0, .vnull, 1⟩,
       ⟨10, "Monday", .vstr "14:45", .vstr "14:45", .vnull, .vstr "4", "TLH",
        .vstr "GWR", 0, .vnull, 2⟩,
       ⟨10, "Monday", .vstr "14:45", .vstr "14:45", .vnull, .vstr "5", "TLH",
        .vstr "GWR", 0, .vnull, 3⟩]
      "Monday" "14:45" = [("5", 1)]) := by
  refine ⟨?_, ?_, ?_, by decide⟩
  · intro db dow st
    unfold getServicePlatformCounts countsByPlatform
    rw [map_snd_keyed_sum]
    have hfun : (fun p => ((latestPerDate (matchingRows db dow st)).filter
        (fun r => decide (r.platform = JSVal.vstr p))).length) =
        fun p => ((latestPerDate (matchingRows db dow st)).filterMap
          (fun r => strOf r.platform)).count p :=
      funext (fun p => filter_platform_length_eq_count p _)
    rw [hfun]
    have hperm : List.Perm
        (sortStrings ((latestPerDate (matchingRows db dow st)).filterMap
          (fun r => strOf r.platform)).dedup)
        ((latestPerDate (matchingRows db dow st)).filterMap
          (fun r => strOf r.platform)).dedup :=
      List.perm_insertionSort _ _
    rw [(hperm.map _).sum_eq]
    rw [List.sum_map_count_dedup_eq_length]
    rw [filterMap_length_of_all_some _ _
      (fun r hr => strOf_isSome_of_notnull (latestPerDate_all_notnull hr))]
    exact latestPerDate_length (matchingRows db dow st)
  · intro db dow st p
    unfold getServicePlatformCounts countsByPlatform
    have hNodup : (sortStrings ((latestPerDate (matchingRows db dow st)).filterMap
        (fun r => strOf r.platform)).dedup).Nodup :=
      (List.perm_insertionSort _ _).nodup_iff.mpr (List.nodup_dedup _)
    rw [filter_keyed_sum p _ _ hNodup]
    have hchain := cnt_eq_dates_count (matchingRows db dow st) p
    by_cases hp : p ∈ sortStrings ((latestPerDate (matchingRows db dow st)).filterMap
        (fun r => strOf r.platform)).dedup
    · rw [if_pos hp]
      exact hchain
    · rw [if_neg hp, ← hchain]
      symm
      rw [List.length_eq_zero, List.filter_eq_nil_iff]
      intro r hr hcontra
      apply hp
      have hrp : r.platform = JSVal.vstr p := of_decide_eq_true hcontra
      have hmemps : p ∈ (latestPerDate (matchingRows db dow st)).filterMap
          (fun r => strOf r.platform) :=
        List.mem_filterMap.mpr ⟨r, hr, by simp [hrp, strOf]⟩
      exact ((List.perm_insertionSort _ _).mem_iff).mpr (List.mem_dedup.mpr hmemps)
  · intro db dow st sd r hmem hsd hmax
    unfold latestPlatFor
    have harg : argmaxCreated ((matchingRows db dow st).filter
        (fun r2 => decide (r2.service_date = sd))) = some r := by
      apply argmaxCreated_strict (List.mem_filter.mpr ⟨hmem, by simp [hsd]⟩)
      intro r2 h2 hne
      have h2sd : r2.service_date = sd := by
        have := List.of_mem_filter h2
        simpa using this
      exact hmax r2 (List.mem_of_mem_filter h2) h2sd hne
    rw [harg]
    rfl

/-- Witness for C3: the latest-per-day platform of the concrete three-row
table is platform 5. -/
theorem counts_latest_per_day_witness :
    latestPlatFor (matchingRows
      [⟨10, "Monday", .vstr "14:45", .vstr "14:45", .vnull, .vstr "4", "TLH",
        .vstr "GWR", 0, .vnull, 1⟩,
       ⟨10, "Monday", .vstr "14:45", .vstr "14:45", .vnull, .vstr "4", "TLH",
        .vstr "GWR", 0, .vnull, 2⟩,
       ⟨10, "Monday", .vstr "14:45", .vstr "14:45", .vnull, .vstr "5", "TLH",
        .vstr "GWR", 0, .vnull, 3⟩] "Monday" "14:45") 10 = some "5" :=
  counts_latest_per_day.2.2.1
    [⟨10, "Monday", .vstr "14:45", .vstr "14:45", .vnull, .vstr "4", "TLH",
      .vstr "GWR", 0, .vnull, 1⟩,
     ⟨10, "Monday", .vstr "14:45", .vstr "14:45", .vnull, .vstr "4", "TLH",
      .vstr "GWR", 0, .vnull, 2⟩,
     ⟨10, "Monday", .vstr "14:45", .vstr "14:45", .vnull, .vstr "5", "TLH",
      .vstr "GWR", 0, .vnull, 3⟩] "Monday" "14:45" 10
    ⟨10, "Monday", .vstr "14:45", .vstr "14:45", .vnull, .vstr "5", "TLH",
      .vstr "GWR", 0, .vnull, 3⟩
    (by decide) rfl (by decide)
